import Mathlib

/-!
Verification development for the `rir` tool: a shallow embedding of its
delegation-feed parser, IPv4 prefix decomposer and query/aggregation code,
with theorems settling the specification claims.

Machine integers are modelled as `Nat`/`Int` with explicit `% 2^w` where the
Go code relies on fixed-width wrapping (`uint32` addresses/counts, `uint`
mask arithmetic).  `big.Int` accumulators are modelled as `Int`.  Fallible
code (`log.Fatal`, `panic`, out-of-range indexing) is modelled with `Option`:
`none` means the Go process dies before producing a result.

Loops that terminate because a nonnegative quantity strictly decreases are
written as structural recursion on a fuel argument initialised with that
quantity, so every definition evaluates by kernel reduction; a congruence
lemma shows the fuel is irrelevant once it is at least the decreasing
quantity.
-/

namespace Rir

/-- Model of `netip.Addr`: an address family tag plus the numeric value of
the address (below `2^32` for IPv4, below `2^128` for IPv6). -/
structure GoAddr where
  is4 : Bool
  val : Nat
deriving DecidableEq, Repr

/-- Model of `netip.Prefix`: an address plus the prefix bit count.
`netip` stores the bit count as a signed integer; the invalid marker is
`-1`. -/
structure GoPfx where
  addr : GoAddr
  bits : Int
deriving DecidableEq, Repr

/-- `netip.Addr.BitLen`: 32 for IPv4 addresses, 128 for IPv6 addresses. -/
def addrBitLen (a : GoAddr) : Int :=
  if a.is4 then 32 else 128

/-- Model of `netip.PrefixFrom`: bit counts below 0 or above the address
bit length are replaced with the invalid marker `-1`; the address itself is
kept. -/
def prefixFrom (a : GoAddr) (bits : Int) : GoPfx :=
  if bits < 0 ∨ addrBitLen a < bits then ⟨a, -1⟩ else ⟨a, bits⟩

/-- The loop of `hostMaxLen` (reader.go): count trailing zero bits by
repeated right shift.  In Go this is `for ip&1 == 0 { ip >>= 1; res++ }`,
entered only with `ip ≠ 0` (on which it terminates because a nonzero even
number halves to a nonzero number); the fuel argument is initialised with
`ip`, which bounds the number of shifts. -/
def tzGo : Nat → Nat → Nat
  | 0, _ => 0
  | fuel + 1, ip => if ip % 2 = 0 ∧ ip ≠ 0 then tzGo fuel (ip / 2) + 1 else 0

/-- `hostMaxLen` (reader.go): the number of trailing zero bits of a 32-bit
start address, and 32 for the all-zero address. -/
def hostMaxLen (ip : Nat) : Nat :=
  if ip = 0 then 32 else tzGo ip ip

/-- `int(math.Log2(float64(n)))` (reader.go) for a nonzero `uint32`, i.e.
the floor of the base-2 logarithm: a `uint32` is exact in `float64`, and for
all such values the rounded `math.Log2` result has the same integer floor.
Written as the halving recursion with fuel `n`. -/
def log2Go : Nat → Nat → Nat
  | 0, _ => 0
  | fuel + 1, n => if 2 ≤ n then log2Go fuel (n / 2) + 1 else 0

/-- Floor base-2 logarithm with self fuel. -/
def goLog2 (n : Nat) : Nat := log2Go n n

/-- The block exponent chosen by one iteration of `v4Net` (reader.go):
`min(logRes, maxRes)` written with the source's comparison
`if logRes < maxRes { minNet = logRes } else { minNet = maxRes }`. -/
def v4MinNet (currentStart hostsCount : Nat) : Nat :=
  if goLog2 hostsCount < hostMaxLen currentStart
  then goLog2 hostsCount else hostMaxLen currentStart

/-- The number of addresses emitted by one iteration of `v4Net`
(`numHosts := uint32(1 << minNet)`). -/
def v4BlockSize (currentStart hostsCount : Nat) : Nat :=
  2 ^ v4MinNet currentStart hostsCount

/-- The loop of `v4Net` (reader.go): while hosts remain, emit the prefix of
`2^minNet` addresses at the current start, then advance the `uint32` start
(wrapping) and subtract the block from the remaining count.  Each iteration
removes at least one host, so fuel `hostsCount` suffices. -/
def v4NetGo : Nat → Nat → Nat → List GoPfx
  | 0, _, _ => []
  | fuel + 1, currentStart, hostsCount =>
    if hostsCount = 0 then []
    else
      let minNet := v4MinNet currentStart hostsCount
      let numHosts := 2 ^ minNet
      prefixFrom ⟨true, currentStart⟩ (32 - (minNet : Int)) ::
        v4NetGo fuel ((currentStart + numHosts) % 2 ^ 32) (hostsCount - numHosts)

/-- `v4Net`'s decomposition of `(start, hostsCount)` into CIDR prefixes. -/
def v4NetLoop (currentStart hostsCount : Nat) : List GoPfx :=
  v4NetGo hostsCount currentStart hostsCount

/-- Go `uint32(v)` conversion of a (signed) `int` value. -/
def uint32OfInt (v : Int) : Nat :=
  (v % (2 ^ 32 : Int)).toNat

/-- Base record fields (reader.go `Record`). -/
structure RecordM where
  registry : String
  cc : String
  type : String
  value : Int
  date : String
  status : String
  opaqueId : String
deriving DecidableEq, Repr

/-- reader.go `IpRecord`: a record plus its parsed start address. -/
structure IpRecordM extends RecordM where
  start : GoAddr
deriving DecidableEq, Repr

/-- reader.go `AsnRecord`: a record plus its numeric start. -/
structure AsnRecordM extends RecordM where
  start : Int
deriving DecidableEq, Repr

/-- `As4` on the model: the 32-bit value of an IPv4 address.  Go's `As4`
panics on addresses that are neither IPv4 nor IPv4-in-IPv6-mapped; the
mapped form does not occur in this development and is modelled as the same
failure. -/
def goAs4 (a : GoAddr) : Option Nat :=
  if a.is4 then some a.val else none

/-- `v4Net` (reader.go) at the record level: the start address is read as a
big-endian `uint32` and the record's value as a `uint32` host count. -/
def v4NetOf (r : IpRecordM) : Option (List GoPfx) :=
  (goAs4 r.start).map fun s => v4NetLoop s (uint32OfInt r.value)

/-- `v6Net` (reader.go): a single prefix built from the start address and
the record's value used directly as the prefix length. -/
def v6NetOf (r : IpRecordM) : List GoPfx :=
  [prefixFrom r.start r.value]

/-- `Net` (reader.go): dispatch on the record type; any type other than
`ipv4`/`ipv6` is a `log.Fatalf` (modelled as `none`), as is the `As4` panic
inside `v4Net`. -/
def netOf (r : IpRecordM) : Option (List GoPfx) :=
  if r.type = "ipv4" then v4NetOf r
  else if r.type = "ipv6" then some (v6NetOf r)
  else none

/-- Number of addresses covered by a prefix, `2^(32 - length)` for IPv4
prefix lengths. -/
def pfxHosts (p : GoPfx) : Nat :=
  2 ^ ((32 - p.bits).toNat)

/-- The set of addresses covered by an IPv4 prefix. -/
def addrsOf (p : GoPfx) : Finset Nat :=
  Finset.Ico p.addr.val (p.addr.val + pfxHosts p)

/-- Union of the address sets of a list of prefixes. -/
def blocksUnion (l : List GoPfx) : Finset Nat :=
  l.foldr (fun p acc => addrsOf p ∪ acc) ∅

/-! ### Fuel irrelevance and arithmetic facts for the decomposer -/

theorem tzGo_zero (f : Nat) : tzGo f 0 = 0 := by
  cases f <;> simp [tzGo]

theorem tzGo_congr : ∀ fuel fuel' ip, ip ≤ fuel → ip ≤ fuel' →
    tzGo fuel ip = tzGo fuel' ip := by
  intro fuel
  induction fuel with
  | zero =>
    intro fuel' ip h _
    have : ip = 0 := Nat.le_zero.mp h
    subst this
    rw [tzGo_zero, tzGo_zero]
  | succ f ihf =>
    intro fuel' ip h h'
    by_cases hip : ip % 2 = 0 ∧ ip ≠ 0
    · obtain ⟨f', rfl⟩ : ∃ f'', fuel' = f'' + 1 := by
        cases fuel' with
        | zero => exact absurd (Nat.le_zero.mp h') hip.2
        | succ k => exact ⟨k, rfl⟩
      simp only [tzGo, if_pos hip]
      have hlt : ip / 2 < ip := Nat.div_lt_self (Nat.pos_of_ne_zero hip.2) (by omega)
      rw [ihf f' (ip / 2) (by omega) (by omega)]
    · cases fuel' with
      | zero =>
        have : ip = 0 := Nat.le_zero.mp h'
        subst this
        rw [tzGo_zero, tzGo_zero]
      | succ f' => simp only [tzGo, if_neg hip]

theorem tzGo_spec : ∀ fuel ip, 0 < ip → ip ≤ fuel →
    2 ^ tzGo fuel ip ∣ ip ∧ ¬ 2 ^ (tzGo fuel ip + 1) ∣ ip := by
  intro fuel
  induction fuel with
  | zero => intro ip h h'; omega
  | succ f ihf =>
    intro ip hip hle
    by_cases hc : ip % 2 = 0 ∧ ip ≠ 0
    · simp only [tzGo, if_pos hc]
      have hhalf : 0 < ip / 2 := by omega
      have hlt : ip / 2 ≤ f := by omega
      obtain ⟨hdvd, hndvd⟩ := ihf (ip / 2) hhalf hlt
      set t := tzGo f (ip / 2) with ht
      have hip2 : ip = 2 * (ip / 2) := by omega
      constructor
      · obtain ⟨k, hk⟩ := hdvd
        exact ⟨k, by rw [hip2, hk, pow_succ]; ring⟩
      · rintro ⟨k, hk⟩
        apply hndvd
        refine ⟨k, ?_⟩
        have : 2 * (ip / 2) = 2 * (2 ^ (t + 1) * k) := by
          rw [← hip2, hk]; ring
        omega
    · simp only [tzGo, if_neg hc]
      have hodd : ip % 2 = 1 := by omega
      refine ⟨one_dvd ip, ?_⟩
      intro hdvd
      rw [pow_one] at hdvd
      omega

theorem hostMaxLen_dvd (ip : Nat) (h : 0 < ip) :
    2 ^ hostMaxLen ip ∣ ip ∧ ¬ 2 ^ (hostMaxLen ip + 1) ∣ ip := by
  rw [hostMaxLen, if_neg (by omega)]
  exact tzGo_spec ip ip h le_rfl

theorem log2Go_spec : ∀ fuel n, 0 < n → n ≤ fuel →
    2 ^ log2Go fuel n ≤ n ∧ n < 2 ^ (log2Go fuel n + 1) := by
  intro fuel
  induction fuel with
  | zero => intro n h h'; omega
  | succ f ihf =>
    intro n hn hle
    by_cases h2 : 2 ≤ n
    · simp only [log2Go, if_pos h2]
      have hhalf : 0 < n / 2 := by omega
      have hlt : n / 2 ≤ f := by omega
      obtain ⟨hlo, hhi⟩ := ihf (n / 2) hhalf hlt
      set t := log2Go f (n / 2) with ht
      rw [pow_succ, pow_succ]
      rw [pow_succ] at hhi
      omega
    · simp only [log2Go, if_neg h2]
      omega

theorem goLog2_spec (n : Nat) (h : 0 < n) :
    2 ^ goLog2 n ≤ n ∧ n < 2 ^ (goLog2 n + 1) :=
  log2Go_spec n n h le_rfl

theorem v4MinNet_le_log (s c : Nat) : v4MinNet s c ≤ goLog2 c := by
  unfold v4MinNet
  split <;> omega

theorem v4BlockSize_pos (s c : Nat) : 1 ≤ v4BlockSize s c :=
  Nat.one_le_two_pow

theorem v4BlockSize_le (s c : Nat) (hc : 0 < c) : v4BlockSize s c ≤ c := by
  calc 2 ^ v4MinNet s c ≤ 2 ^ goLog2 c :=
        Nat.pow_le_pow_right (by omega) (v4MinNet_le_log s c)
    _ ≤ c := (goLog2_spec c hc).1

theorem v4MinNet_le_32 (s c : Nat) (hc : 0 < c) (hc32 : c ≤ 2 ^ 32) :
    v4MinNet s c ≤ 32 := by
  have h1 : 2 ^ v4MinNet s c ≤ 2 ^ 32 :=
    le_trans (le_trans (Nat.pow_le_pow_right (by omega) (v4MinNet_le_log s c))
      (goLog2_spec c hc).1) hc32
  by_contra hgt
  have h33 : (2 : Nat) ^ 33 ≤ 2 ^ v4MinNet s c :=
    Nat.pow_le_pow_right (by omega) (by omega)
  have := le_trans h33 h1
  norm_num at this

theorem v4NetGo_zero (f s : Nat) : v4NetGo f s 0 = [] := by
  cases f <;> simp [v4NetGo]

theorem v4NetGo_congr : ∀ fuel fuel' s c, c ≤ fuel → c ≤ fuel' →
    v4NetGo fuel s c = v4NetGo fuel' s c := by
  intro fuel
  induction fuel with
  | zero =>
    intro fuel' s c h _
    have : c = 0 := Nat.le_zero.mp h
    subst this
    rw [v4NetGo_zero, v4NetGo_zero]
  | succ f ihf =>
    intro fuel' s c h h'
    by_cases hc : c = 0
    · subst hc; rw [v4NetGo_zero, v4NetGo_zero]
    · obtain ⟨f', rfl⟩ : ∃ f'', fuel' = f'' + 1 := by
        cases fuel' with
        | zero => exact absurd (Nat.le_zero.mp h') hc
        | succ k => exact ⟨k, rfl⟩
      simp only [v4NetGo, if_neg hc]
      have hk := v4BlockSize_pos s c
      unfold v4BlockSize at hk
      rw [ihf f' _ (c - 2 ^ v4MinNet s c) (by omega) (by omega)]

theorem v4NetLoop_zero (s : Nat) : v4NetLoop s 0 = [] := rfl

theorem v4NetLoop_cons (s c : Nat) (hc : 0 < c) :
    v4NetLoop s c =
      prefixFrom ⟨true, s⟩ (32 - (v4MinNet s c : Int)) ::
        v4NetLoop ((s + v4BlockSize s c) % 2 ^ 32) (c - v4BlockSize s c) := by
  obtain ⟨c', rfl⟩ : ∃ c'', c = c'' + 1 := ⟨c - 1, by omega⟩
  show v4NetGo (c' + 1) s (c' + 1) = _
  simp only [v4NetGo, if_neg (Nat.succ_ne_zero c')]
  have hk := v4BlockSize_pos s (c' + 1)
  unfold v4BlockSize at hk ⊢
  rw [v4NetGo_congr c' (c' + 1 - 2 ^ v4MinNet s (c' + 1)) _ _ (by omega) le_rfl]
  rfl

theorem prefixFrom_v4 (s m : Nat) (hm : m ≤ 32) :
    prefixFrom ⟨true, s⟩ (32 - (m : Int)) = ⟨⟨true, s⟩, 32 - (m : Int)⟩ := by
  rw [prefixFrom, if_neg]
  simp only [addrBitLen, if_pos rfl]
  omega

theorem pfxHosts_v4 (s : GoAddr) (m : Nat) (hm : m ≤ 32) :
    pfxHosts ⟨s, 32 - (m : Int)⟩ = 2 ^ m := by
  show (2 : Nat) ^ ((32 - (32 - (m : Int))).toNat) = 2 ^ m
  congr 1
  omega

theorem addrsOf_subset_blocksUnion {p : GoPfx} :
    ∀ {l : List GoPfx}, p ∈ l → addrsOf p ⊆ blocksUnion l := by
  intro l
  induction l with
  | nil => intro h; cases h
  | cons q t iht =>
    intro hp
    rcases List.mem_cons.mp hp with h | h
    · subst h; exact Finset.subset_union_left
    · exact subset_trans (iht h) Finset.subset_union_right

/-- Claim C2: for a valid IPv4 (start, count) pair with `count ≥ 1`, the
decomposer's output prefixes cover `count` addresses in total, are pairwise
disjoint, and their union is exactly the contiguous range
`[start, start+count)`. -/
theorem c2_v4_decomposition (c s : Nat) (hc : 1 ≤ c) (hv : s + c ≤ 2 ^ 32) :
    ((v4NetLoop s c).map pfxHosts).sum = c ∧
    blocksUnion (v4NetLoop s c) = Finset.Ico s (s + c) ∧
    (v4NetLoop s c).Pairwise fun p q => Disjoint (addrsOf p) (addrsOf q) := by
  induction c using Nat.strong_induction_on generalizing s with
  | _ c ih =>
  have hm32 : v4MinNet s c ≤ 32 := v4MinNet_le_32 s c (by omega) (by omega)
  have hk1 : 1 ≤ v4BlockSize s c := v4BlockSize_pos s c
  have hkc : v4BlockSize s c ≤ c := v4BlockSize_le s c (by omega)
  have hkpow : v4BlockSize s c = 2 ^ v4MinNet s c := rfl
  rw [v4NetLoop_cons s c (by omega), prefixFrom_v4 s _ hm32]
  have hhosts : pfxHosts ⟨⟨true, s⟩, 32 - (v4MinNet s c : Int)⟩ = v4BlockSize s c :=
    pfxHosts_v4 _ _ hm32
  have haddrs : addrsOf ⟨⟨true, s⟩, 32 - (v4MinNet s c : Int)⟩ =
      Finset.Ico s (s + v4BlockSize s c) := by
    unfold addrsOf
    rw [hhosts]
  by_cases hend : c = v4BlockSize s c
  · rw [← hend]
    rw [Nat.sub_self, v4NetLoop_zero]
    refine ⟨by simp [hhosts, ← hend], ?_, List.pairwise_singleton _ _⟩
    show addrsOf _ ∪ ∅ = _
    rw [Finset.union_empty, haddrs, ← hend]
  · have hklt : v4BlockSize s c < c := by omega
    have hmod : (s + v4BlockSize s c) % 2 ^ 32 = s + v4BlockSize s c :=
      Nat.mod_eq_of_lt (by omega)
    rw [hmod]
    obtain ⟨ihs, ihu, ihp⟩ :=
      ih (c - v4BlockSize s c) (by omega) (s + v4BlockSize s c) (by omega) (by omega)
    refine ⟨?_, ?_, ?_⟩
    · rw [List.map_cons, List.sum_cons, hhosts, ihs]
      omega
    · show addrsOf _ ∪ blocksUnion _ = _
      rw [haddrs, ihu]
      have : s + v4BlockSize s c + (c - v4BlockSize s c) = s + c := by omega
      rw [this, Finset.Ico_union_Ico_eq_Ico (by omega) (by omega)]
    · refine List.pairwise_cons.mpr ⟨?_, ihp⟩
      intro q hq
      have hsub : addrsOf q ⊆ Finset.Ico (s + v4BlockSize s c)
          (s + v4BlockSize s c + (c - v4BlockSize s c)) := by
        rw [← ihu]
        exact addrsOf_subset_blocksUnion hq
      rw [haddrs]
      exact Disjoint.mono_right hsub
        (Finset.Ico_disjoint_Ico_consecutive s (s + v4BlockSize s c) _)

/-- Witness for C2 at the concrete entry `start = 10.0.0.4, count = 5`. -/
theorem c2_v4_decomposition_witness :
    (1 ≤ 5 ∧ 167772164 + 5 ≤ 2 ^ 32) ∧
    (((v4NetLoop 167772164 5).map pfxHosts).sum = 5 ∧
     blocksUnion (v4NetLoop 167772164 5) = Finset.Ico 167772164 (167772164 + 5) ∧
     (v4NetLoop 167772164 5).Pairwise fun p q => Disjoint (addrsOf p) (addrsOf q)) :=
  ⟨⟨by norm_num, by norm_num⟩, c2_v4_decomposition 5 167772164 (by norm_num) (by norm_num)⟩

/-- Claim C3: each iteration of the IPv4 decomposer emits the prefix of
length `32 - min(maxAlign, maxFit)` at the current start and advances by
`2^min(maxAlign, maxFit)`, where `maxAlign` is the trailing-zero count of
the 32-bit start (32 for the all-zero address, characterised here by
divisibility) and `maxFit` is the floor of the base-2 logarithm of the
remaining count (characterised by the power sandwich); concretely,
`(10.0.0.4, 5)` decomposes to `[10.0.0.4/30, 10.0.0.8/32]`. -/
theorem c3_stepwise :
    (∀ s c, 0 < c → ∀ m : Nat, m = min (goLog2 c) (hostMaxLen s) →
        v4NetLoop s c =
          prefixFrom ⟨true, s⟩ (32 - (m : Int)) ::
            v4NetLoop ((s + 2 ^ m) % 2 ^ 32) (c - 2 ^ m)) ∧
    hostMaxLen 0 = 32 ∧
    (∀ n, 0 < n → 2 ^ hostMaxLen n ∣ n ∧ ¬ 2 ^ (hostMaxLen n + 1) ∣ n) ∧
    (∀ c, 0 < c → 2 ^ goLog2 c ≤ c ∧ c < 2 ^ (goLog2 c + 1)) ∧
    v4NetLoop 167772164 5 = [⟨⟨true, 167772164⟩, 30⟩, ⟨⟨true, 167772168⟩, 32⟩] := by
  have hmin : ∀ s c, v4MinNet s c = min (goLog2 c) (hostMaxLen s) := by
    intro s c
    unfold v4MinNet
    split <;> omega
  refine ⟨?_, by decide, hostMaxLen_dvd, goLog2_spec, by decide⟩
  intro s c hc m hm
  have hbs : v4BlockSize s c = 2 ^ m := by
    rw [v4BlockSize, hmin, ← hm]
  rw [v4NetLoop_cons s c hc, hmin, ← hm, hbs]

/-- Witness for C3: the step equation at `(10.0.0.4, 5)` and the
trailing-zero characterisation at `12`. -/
theorem c3_stepwise_witness :
    (0 < 5 ∧ (2 : Nat) = min (goLog2 5) (hostMaxLen 167772164) ∧
      v4NetLoop 167772164 5 =
        prefixFrom ⟨true, 167772164⟩ (32 - (2 : Int)) ::
          v4NetLoop ((167772164 + 2 ^ 2) % 2 ^ 32) (5 - 2 ^ 2)) ∧
    (0 < 12 ∧ 2 ^ hostMaxLen 12 ∣ 12 ∧ ¬ 2 ^ (hostMaxLen 12 + 1) ∣ 12) :=
  ⟨⟨by norm_num, by decide, c3_stepwise.1 167772164 5 (by norm_num) 2 (by decide)⟩,
   ⟨by norm_num, c3_stepwise.2.2.1 12 (by norm_num)⟩⟩

/-- Claim C4: the decomposition loop terminates because each iteration's
block size `2^blockBits` is at least 1 and never exceeds the remaining
count, so the count strictly decreases. -/
theorem c4_termination (s c : Nat) (hc : 0 < c) :
    1 ≤ v4BlockSize s c ∧ v4BlockSize s c ≤ c ∧ c - v4BlockSize s c < c ∧
    (v4NetLoop s c).length =
      1 + (v4NetLoop ((s + v4BlockSize s c) % 2 ^ 32) (c - v4BlockSize s c)).length := by
  have h1 := v4BlockSize_pos s c
  have h2 := v4BlockSize_le s c hc
  refine ⟨h1, h2, by omega, ?_⟩
  rw [v4NetLoop_cons s c hc]
  simp [List.length_cons]
  omega

/-- Witness for C4 at `(start, count) = (6, 5)`. -/
theorem c4_termination_witness :
    0 < 5 ∧ (1 ≤ v4BlockSize 6 5 ∧ v4BlockSize 6 5 ≤ 5 ∧ 5 - v4BlockSize 6 5 < 5 ∧
      (v4NetLoop 6 5).length =
        1 + (v4NetLoop ((6 + v4BlockSize 6 5) % 2 ^ 32) (5 - v4BlockSize 6 5)).length) :=
  ⟨by norm_num, c4_termination 6 5 (by norm_num)⟩

/-- A concrete IPv6 record (`2001:db8::` with declared length 32) used in
the witness for C6. -/
def rirTestV6 : IpRecordM :=
  ⟨⟨"ripencc", "FR", "ipv6", 32, "20100101", "allocated", ""⟩,
   ⟨false, 42540766411282592856903984951653826560⟩⟩

/-- Claim C6: decomposing an IPv6 entry yields exactly one prefix, the
entry's start address paired with the feed's declared prefix length
unchanged (the declared length of a well-formed IPv6 line lies in
`[0, 128]`, the range `netip.PrefixFrom` accepts for a 128-bit address). -/
theorem c6_v6_identity (r : IpRecordM) (ht : r.type = "ipv6")
    (h4 : r.start.is4 = false) (h0 : 0 ≤ r.value) (h128 : r.value ≤ 128) :
    netOf r = some [⟨r.start, r.value⟩] := by
  unfold netOf
  rw [ht, if_neg (by decide), if_pos rfl]
  unfold v6NetOf prefixFrom
  rw [if_neg]
  rw [addrBitLen, h4]
  simp only [Bool.false_eq_true, if_false]
  omega

/-- Witness for C6 at a concrete IPv6 entry with declared length 32. -/
theorem c6_v6_identity_witness :
    (rirTestV6.type = "ipv6" ∧ rirTestV6.start.is4 = false ∧
      (0 : Int) ≤ rirTestV6.value ∧ rirTestV6.value ≤ 128) ∧
    netOf rirTestV6 = some [⟨rirTestV6.start, rirTestV6.value⟩] :=
  ⟨⟨rfl, rfl, by decide, by decide⟩,
   c6_v6_identity rirTestV6 rfl rfl (by decide) (by decide)⟩

/-! ### String utilities modelling the Go standard library calls -/

/-- Model of `strings.Split(line, sep)` for a one-character separator:
pieces between occurrences of the separator, in order (always at least one
piece). -/
def splitChAux (sep : Char) (cur : List Char) : List Char → List String
  | [] => [String.mk cur.reverse]
  | c :: cs =>
    if c = sep then String.mk cur.reverse :: splitChAux sep [] cs
    else splitChAux sep (c :: cur) cs

/-- `strings.Split(s, sep)` for a one-character separator. -/
def splitCh (sep : Char) (s : String) : List String :=
  splitChAux sep [] s.data

/-- `strings.Split(p.currentLine, "|")` (reader.go). -/
def fieldsOf (line : String) : List String :=
  splitCh '|' line

/-- The character class `\s` of Go's regexp package. -/
def goSpace (c : Char) : Bool :=
  (c == ' ') || (c == '\t') || (c == '\n') || (c == '\x0c') || (c == '\r')

/-- `listHasPre pre l` holds when `pre` is an initial segment of `l`
(`strings.HasPrefix` on the character lists). -/
def listHasPre : List Char → List Char → Bool
  | [], _ => true
  | _ :: _, [] => false
  | p :: ps, c :: cs => (p == c) && listHasPre ps cs

/-- `strings.HasPrefix(s, pre)`. -/
def goHasPre (pre s : String) : Bool :=
  listHasPre pre.data s.data

/-- `strings.HasSuffix(s, suf)`. -/
def goHasSuf (suf s : String) : Bool :=
  listHasPre suf.data.reverse s.data.reverse

/-- `ignoredRegex.MatchString` for `^\s*(#.*)?$` (reader.go, current
variant): with both anchors the whole line must be whitespace optionally
followed by a `#` comment. -/
def isIgnoredA (line : String) : Bool :=
  match line.data.dropWhile goSpace with
  | [] => true
  | c :: _ => c == '#'

/-- `ignoredRegex.MatchString` for `^#|^\s*$` (reader.go, older variant):
the line starts with `#`, or is entirely whitespace. -/
def isIgnoredB (line : String) : Bool :=
  (match line.data with
   | [] => false
   | c :: _ => c == '#') || line.data.all goSpace

/-- `versionRegex.MatchString` for `^\d+\.*\d*` (reader.go): satisfied
exactly when the line starts with an ASCII digit, since `\.*\d*` also
matches the empty string. -/
def isVersionLine (line : String) : Bool :=
  match line.data with
  | [] => false
  | c :: _ => c.isDigit

/-- `strings.HasSuffix(p.currentLine, "summary")` (reader.go). -/
def isSummaryLine (line : String) : Bool :=
  goHasSuf "summary" line

/-- Value of a list of ASCII digits read in base 10. -/
def digitsVal (l : List Char) : Nat :=
  l.foldl (fun a c => a * 10 + (c.toNat - 48)) 0

/-- All characters are ASCII digits. -/
def allDigits (l : List Char) : Bool :=
  l.all Char.isDigit

/-- Model of `strconv.Atoi` (`ParseInt(s, 10, 0)` with 64-bit `int`): an
optional sign followed by one or more ASCII digits, value within the
`int64` range; anything else (including digit underscores, which base-10
`ParseInt` rejects) is an error. -/
def goAtoi (s : String) : Option Int :=
  match s.data with
  | '+' :: rest => goAtoiCore rest false
  | '-' :: rest => goAtoiCore rest true
  | l => goAtoiCore l false
where
  goAtoiCore (l : List Char) (neg : Bool) : Option Int :=
    if l.isEmpty then none
    else if allDigits l then
      let v : Int := (digitsVal l : Nat)
      if neg then (if v ≤ 2 ^ 63 then some (-v) else none)
      else (if v ≤ 2 ^ 63 - 1 then some v else none)
    else none

/-- Exponent suffix of a decimal float literal: optional sign and one or
more digits, as accepted after `e`/`E` by `strconv.ParseFloat`. -/
def goFloatExp (sign mant : Rat) (r : List Char) : Option Rat :=
  let signDigits : Bool × List Char :=
    match r with
    | '+' :: d => (false, d)
    | '-' :: d => (true, d)
    | d => (false, d)
  let digits := signDigits.2
  if digits.isEmpty || !allDigits digits then none
  else
    let e : Int := if signDigits.1 then -(digitsVal digits : Int) else (digitsVal digits : Int)
    some (sign * mant * (10 : Rat) ^ e)

/-- Model of `strconv.ParseFloat` restricted to plain decimal syntax
`[+-] digits [. digits] [(e|E) [+-] digits]` with at least one mantissa
digit and full consumption, producing the exact rational value.  Go
additionally accepts `Inf`/`NaN` words, hexadecimal floats and digit
underscores, and rounds to the nearest `float64`; the fields this program
feeds to `ParseFloat` always start with a decimal digit, and no claim
depends on the rounded value of a successful parse. -/
def goParseFloat (s : String) : Option Rat :=
  let signRest : Rat × List Char :=
    match s.data with
    | '+' :: r => (1, r)
    | '-' :: r => (-1, r)
    | r => (1, r)
  let sign := signRest.1
  let rest := signRest.2
  let intPart := rest.takeWhile Char.isDigit
  let rest1 := rest.dropWhile Char.isDigit
  let fracRest : List Char × List Char :=
    match rest1 with
    | '.' :: r => (r.takeWhile Char.isDigit, r.dropWhile Char.isDigit)
    | _ => ([], rest1)
  let fracPart := fracRest.1
  if intPart.isEmpty && fracPart.isEmpty then none
  else
    let mant : Rat :=
      (digitsVal intPart : Nat) + (digitsVal fracPart : Nat) / ((10 : Rat) ^ fracPart.length)
    match fracRest.2 with
    | [] => some (sign * mant)
    | 'e' :: r => goFloatExp sign mant r
    | 'E' :: r => goFloatExp sign mant r
    | _ => none

/-- One field of an IPv4 dotted-quad literal per `netip`: one to three
ASCII digits, value at most 255, and no leading zero. -/
def v4FieldVal (l : List Char) : Option Nat :=
  if l.isEmpty || !allDigits l || l.length > 3 then none
  else if l.length > 1 && (l.headD ' ' == '0') then none
  else if digitsVal l > 255 then none
  else some (digitsVal l)

/-- Model of `netip.ParseAddr` for IPv4 dotted-quad literals: as in
`netip`, the first of `.`, `:`, `%` decides the parse (a `.` selects the
IPv4 grammar).  The IPv6 literal grammar is not modelled; no claim depends
on which IPv6 literals parse. -/
def goParseAddr (s : String) : Option GoAddr :=
  match s.data.find? (fun c => c == '.' || c == ':' || c == '%') with
  | some '.' =>
    match (splitCh '.' s).map (fun f => v4FieldVal f.data) with
    | [some a, some b, some c, some d] =>
      some ⟨true, ((a * 256 + b) * 256 + c) * 256 + d⟩
    | _ => none
  | _ => none

/-! ### The line parser (`Reader.Read` and the `parser` methods) -/

/-- reader.go `Version`. -/
structure VersionM where
  version : Rat
  registry : String
  serial : String
  records : Int
  startDate : String
  endDate : String
  utcOffset : String
deriving DecidableEq, Repr

/-- reader.go `Summary`. -/
structure SummaryM where
  registry : String
  type : String
  count : Int
deriving DecidableEq, Repr

/-- `parseVersion` of the current reader variant: every numeric field goes
through `check1`, so a failed decode — or a missing field, which panics in
Go — yields no value. -/
def parseVersionA (fields : List String) : Option VersionM :=
  (fields.get? 0).bind fun f0 =>
  (fields.get? 1).bind fun f1 =>
  (fields.get? 2).bind fun f2 =>
  (fields.get? 3).bind fun f3 =>
  (fields.get? 4).bind fun f4 =>
  (fields.get? 5).bind fun f5 =>
  (fields.get? 6).bind fun f6 =>
  (goParseFloat f0).bind fun v =>
  (goAtoi f3).map fun n => ⟨v, f1, f2, n, f4, f5, f6⟩

/-- `parseVersion` of the older reader variant: the `ParseFloat` error is
discarded (`version, _ := strconv.ParseFloat(...)`), so a malformed
version number silently becomes 0, while `toInt` on the record count is
fatal. -/
def parseVersionB (fields : List String) : Option VersionM :=
  (fields.get? 0).bind fun f0 =>
  (fields.get? 1).bind fun f1 =>
  (fields.get? 2).bind fun f2 =>
  (fields.get? 3).bind fun f3 =>
  (fields.get? 4).bind fun f4 =>
  (fields.get? 5).bind fun f5 =>
  (fields.get? 6).bind fun f6 =>
  (goAtoi f3).map fun n => ⟨(goParseFloat f0).getD 0, f1, f2, n, f4, f5, f6⟩

/-- `parseSummary` (identical in both reader variants): registry, type and
count come from fields 0, 2 and 4; the count decode is fatal on failure. -/
def parseSummaryM (fields : List String) : Option SummaryM :=
  (fields.get? 0).bind fun f0 =>
  (fields.get? 2).bind fun f2 =>
  (fields.get? 4).bind fun f4 =>
  (goAtoi f4).map fun n => ⟨f0, f2, n⟩

/-- `buildRecord` (identical in both reader variants): base fields from
0, 1, 2, 4, 5, 6, with the opaque id from field 7 when the line is an
extended record (more than 7 fields) and empty otherwise. -/
def buildRecordM (fields : List String) : Option RecordM :=
  (fields.get? 0).bind fun f0 =>
  (fields.get? 1).bind fun f1 =>
  (fields.get? 2).bind fun f2 =>
  (fields.get? 4).bind fun f4 =>
  (fields.get? 5).bind fun f5 =>
  (fields.get? 6).bind fun f6 =>
  (goAtoi f4).map fun v => ⟨f0, f1, f2, v, f5, f6, (fields.get? 7).getD ""⟩

/-- `parseIp`: the base record plus the start address from field 3; an
address that fails to parse panics (`MustParseAddr` / explicit `panic`). -/
def parseIpM (fields : List String) : Option IpRecordM :=
  (buildRecordM fields).bind fun r0 =>
  (fields.get? 3).bind fun f3 =>
  (goParseAddr f3).map fun a => ⟨r0, a⟩

/-- `parseAsn`: the base record plus the numeric start from field 3;
the decode is fatal on failure. -/
def parseAsnM (fields : List String) : Option AsnRecordM :=
  (buildRecordM fields).bind fun r0 =>
  (fields.get? 3).bind fun f3 =>
  (goAtoi f3).map fun n => ⟨r0, n⟩

/-- reader.go `Records`: the parse result for one source. -/
structure RecordsM where
  version : Rat
  count : Int
  asnCount : Int
  ipv4Count : Int
  ipv6Count : Int
  asns : List AsnRecordM
  ips : List IpRecordM
deriving DecidableEq, Repr

/-- The mutable state of `Read`'s loop. -/
structure ReadStateM where
  version : VersionM
  asnCount : Int
  ipv4Count : Int
  ipv6Count : Int
  asns : List AsnRecordM
  ips : List IpRecordM
deriving DecidableEq, Repr

/-- Go zero values of `Read`'s locals. -/
def initReadState : ReadStateM :=
  ⟨⟨0, "", "", 0, "", "", ""⟩, 0, 0, 0, [], []⟩

/-- The `switch summary.Type` in `Read`: store the count in the matching
per-family counter; any other summary type is ignored. -/
def applySummary (st : ReadStateM) (su : SummaryM) : ReadStateM :=
  if su.type = "asn" then ⟨st.version, su.count, st.ipv4Count, st.ipv6Count, st.asns, st.ips⟩
  else if su.type = "ipv4" then ⟨st.version, st.asnCount, su.count, st.ipv6Count, st.asns, st.ips⟩
  else if su.type = "ipv6" then ⟨st.version, st.asnCount, st.ipv4Count, su.count, st.asns, st.ips⟩
  else st

/-- The `Records` value `Read` returns from its final state. -/
def finishRead (st : ReadStateM) : RecordsM :=
  ⟨st.version.version, st.version.records, st.asnCount, st.ipv4Count, st.ipv6Count,
   st.asns, st.ips⟩

/-- One line of `Read` (current reader variant): the source-order switch
over `isIgnored` / `isVersion` / `isSummary` / `isIp` / `isAsn`.  `isIp`
reads `p.fields[2]`, which panics when the line splits into fewer than
three fields — modelled as `none`. -/
def readStepA (st : ReadStateM) (line : String) : Option ReadStateM :=
  let fields := fieldsOf line
  if isIgnoredA line then some st
  else if isVersionLine line then
    (parseVersionA fields).map fun v =>
      ⟨v, st.asnCount, st.ipv4Count, st.ipv6Count, st.asns, st.ips⟩
  else if isSummaryLine line then
    (parseSummaryM fields).map fun su => applySummary st su
  else
    match fields.get? 2 with
    | none => none
    | some f2 =>
      if goHasPre "ipv" f2 then
        (parseIpM fields).map fun r0 =>
          ⟨st.version, st.asnCount, st.ipv4Count, st.ipv6Count, st.asns, st.ips ++ [r0]⟩
      else if goHasPre "asn" f2 then
        (parseAsnM fields).map fun r0 =>
          ⟨st.version, st.asnCount, st.ipv4Count, st.ipv6Count, st.asns ++ [r0], st.ips⟩
      else some st

/-- One line of `Read` (older reader variant): the same dispatch with that
variant's ignored pattern and its error-discarding `parseVersion`. -/
def readStepB (st : ReadStateM) (line : String) : Option ReadStateM :=
  let fields := fieldsOf line
  if isIgnoredB line then some st
  else if isVersionLine line then
    (parseVersionB fields).map fun v =>
      ⟨v, st.asnCount, st.ipv4Count, st.ipv6Count, st.asns, st.ips⟩
  else if isSummaryLine line then
    (parseSummaryM fields).map fun su => applySummary st su
  else
    match fields.get? 2 with
    | none => none
    | some f2 =>
      if goHasPre "ipv" f2 then
        (parseIpM fields).map fun r0 =>
          ⟨st.version, st.asnCount, st.ipv4Count, st.ipv6Count, st.asns, st.ips ++ [r0]⟩
      else if goHasPre "asn" f2 then
        (parseAsnM fields).map fun r0 =>
          ⟨st.version, st.asnCount, st.ipv4Count, st.ipv6Count, st.asns ++ [r0], st.ips⟩
      else some st

/-- The scan loop of `Read` (current variant) over a list of lines. -/
def readLoopA (st : ReadStateM) : List String → Option ReadStateM
  | [] => some st
  | l :: ls =>
    match readStepA st l with
    | none => none
    | some st' => readLoopA st' ls

/-- `Read` (current variant): scan all lines and assemble `Records`;
`none` models any fatal error on the way. -/
def readA (lines : List String) : Option RecordsM :=
  (readLoopA initReadState lines).map finishRead

/-- The scan loop of `Read` (older variant) over a list of lines. -/
def readLoopB (st : ReadStateM) : List String → Option ReadStateM
  | [] => some st
  | l :: ls =>
    match readStepB st l with
    | none => none
    | some st' => readLoopB st' ls

/-- `Read` (older variant): scan all lines and assemble `Records`. -/
def readB (lines : List String) : Option RecordsM :=
  (readLoopB initReadState lines).map finishRead

/-- The five classification outcomes of `Read`'s switch for one line. -/
inductive LineClass where
  | ignored
  | version
  | summary
  | ipEntry
  | asnEntry
  | dropped
deriving DecidableEq, Repr

/-- The classification decision of `Read`'s switch (current variant) for a
single line; `none` models the out-of-range panic inside `isIp` when the
line splits into fewer than three pipe-delimited fields. -/
def classifyLine (line : String) : Option LineClass :=
  if isIgnoredA line then some .ignored
  else if isVersionLine line then some .version
  else if isSummaryLine line then some .summary
  else
    match (fieldsOf line).get? 2 with
    | none => none
    | some f2 =>
      if goHasPre "ipv" f2 then some .ipEntry
      else if goHasPre "asn" f2 then some .asnEntry
      else some .dropped

/-! ### The query engine and host-count aggregation -/

/-- `netip.Prefix.Contains`: false for an invalid prefix or a family
mismatch, otherwise the address agrees with the prefix address on the top
`bits` bits.  Zoned IPv6 addresses (also rejected by `Contains`) are
outside the model. -/
def pfxContainsB (p : GoPfx) (a : GoAddr) : Bool :=
  if p.bits < 0 then false
  else if a.is4 != p.addr.is4 then false
  else
    let sh : Nat := (addrBitLen p.addr - p.bits).toNat
    a.val / 2 ^ sh == p.addr.val / 2 ^ sh

/-- One hexadecimal digit, lowercase. -/
def hexDigit (n : Nat) : Char :=
  if n < 10 then Char.ofNat (48 + n) else Char.ofNat (87 + n)

/-- Hex digits of `n`, most significant first (fuel-driven division
loop). -/
def hexStrAux : Nat → Nat → List Char
  | 0, _ => []
  | fuel + 1, n => if n = 0 then [] else hexStrAux fuel (n / 16) ++ [hexDigit (n % 16)]

/-- Minimal lowercase hex rendering of a natural number. -/
def hexStr (n : Nat) : String :=
  if n = 0 then "0" else String.mk (hexStrAux n n)

/-- `netip.Addr.String`: dotted quad for IPv4.  For IPv6 the model prints
the eight 16-bit groups in lowercase hex separated by colons; `netip`
additionally compresses the longest zero run with `::` — no claim depends
on the textual form of an IPv6 address. -/
def addrToString (a : GoAddr) : String :=
  if a.is4 then
    toString (a.val / 16777216 % 256) ++ "." ++ toString (a.val / 65536 % 256) ++ "." ++
      toString (a.val / 256 % 256) ++ "." ++ toString (a.val % 256)
  else
    String.intercalate ":" ((List.range 8).map fun i => hexStr (a.val / 2 ^ (16 * (7 - i)) % 65536))

/-- `netip.Prefix.String`: `addr/bits`, or the literal `invalid Prefix`. -/
def pfxToString (p : GoPfx) : String :=
  if p.bits < 0 then "invalid Prefix"
  else addrToString p.addr ++ "/" ++ toString p.bits.toNat

/-- `matchOnIp` (current variant) over one flattened list of IP records:
for each record in order, every decomposed prefix that contains the query
address yields the line `cc ++ "\t" ++ prefix`; a fatal error inside `Net`
aborts the process (`none`).  The concurrent fan-in only permutes whole
sources and is not modelled. -/
def matchOnIpM (addr : GoAddr) : List IpRecordM → Option (List String)
  | [] => some []
  | r :: rest =>
    (netOf r).bind fun nets =>
    (matchOnIpM addr rest).map fun tail =>
      ((nets.filter fun p => pfxContainsB p addr).map
        fun p => r.cc ++ "\t" ++ pfxToString p) ++ tail

/-- The country filter (`readRecordsCountry` in main.go,
`readRegionsCountry` in the current variant): records whose country code
equals the already-uppercased query and whose type is `ipv4` or `ipv6`
contribute their decomposed prefixes, in order. -/
def countryNets (country : String) : List IpRecordM → Option (List GoPfx)
  | [] => some []
  | r :: rest =>
    if r.cc = country ∧ (r.type = "ipv4" ∨ r.type = "ipv6") then
      (netOf r).bind fun nets =>
      (countryNets country rest).map fun tail => nets ++ tail
    else countryNets country rest

/-- ASCII fragment of `strings.ToUpper` (country codes are ASCII; Unicode
case mapping beyond ASCII is outside the model). -/
def goUpperChar (c : Char) : Char :=
  if 97 ≤ c.toNat ∧ c.toNat ≤ 122 then Char.ofNat (c.toNat - 32) else c

/-- `strings.ToUpper` on the model. -/
def goToUpper (s : String) : String :=
  String.mk (s.data.map goUpperChar)

/-- The country query as `main` builds it: the query string is uppercased
once (`strings.ToUpper(country)`), then compared for byte equality against
each record's country code. -/
def countryQueryM (q : String) (recs : List IpRecordM) : Option (List GoPfx) :=
  countryNets (goToUpper q) recs

/-- The loop body of `countryStats` (current variant): per-family `big.Int`
totals; a prefix adds `2^mask` to its family's total, where
`mask = uint(size - bits)` with 64-bit `uint` wrapping, whenever the mask
is nonzero — with no network/broadcast exclusion. -/
def countryStatsStep (acc : Int × Int) (r : GoPfx) : Int × Int :=
  let size : Int := if r.addr.is4 then 32 else 128
  let mask : Nat := ((size - r.bits) % 2 ^ 64).toNat
  if 0 < mask then
    if r.addr.is4 then (acc.1 + 2 ^ mask, acc.2) else (acc.1, acc.2 + 2 ^ mask)
  else acc

/-- `countryStats` (current variant) over the filtered prefix stream:
the `(v4, v6)` totals. -/
def countryStatsFold (ps : List GoPfx) : Int × Int :=
  ps.foldl countryStatsStep (0, 0)

/-- The aggregation loop of `main` (older variant): same masks, but for
IPv4 (`size == 32`) the network and broadcast addresses are subtracted
when additionally `mask < 31`. -/
def mainHostsStep (acc : Int × Int) (r : GoPfx) : Int × Int :=
  let size : Int := if r.addr.is4 then 32 else 128
  let mask : Nat := ((size - r.bits) % 2 ^ 64).toNat
  if 0 < mask then
    let n : Int := if size = 32 ∧ mask < 31 then 2 ^ mask - 2 else 2 ^ mask
    if r.addr.is4 then (acc.1 + n, acc.2) else (acc.1, acc.2 + n)
  else acc

/-- The older `main` aggregation over the filtered prefix stream. -/
def mainHostsFold (ps : List GoPfx) : Int × Int :=
  ps.foldl mainHostsStep (0, 0)

/-- Per-prefix contribution of `countryStats` on a valid prefix of length
`bits` in a family of `size` bits, stated in the amended claim's terms:
`2^(size - bits)` when `bits < size`, nothing when `bits = size`, no
exclusion. -/
def statsContrib (size bits : Nat) : Int :=
  if bits < size then 2 ^ (size - bits) else 0

/-- Per-prefix IPv4 contribution of the older `main` aggregation, in the
amended claim's terms: `2^(32 - bits)` when `bits < 32`, minus 2 exactly
when additionally `1 < bits`; nothing for a /32. -/
def mainContrib4 (bits : Nat) : Int :=
  if bits < 32 then (if 1 < bits then 2 ^ (32 - bits) - 2 else 2 ^ (32 - bits)) else 0

/-- A prefix is valid when its bit count lies between 0 and its address
family's bit length; every prefix built by `netip.PrefixFrom` from a
well-formed feed satisfies this. -/
def validPfx (p : GoPfx) : Prop :=
  0 ≤ p.bits ∧ p.bits ≤ addrBitLen p.addr

instance (p : GoPfx) : Decidable (validPfx p) := by
  unfold validPfx
  infer_instance

theorem statsStep_eq (acc : Int × Int) (p : GoPfx) (h : validPfx p) :
    countryStatsStep acc p =
      (acc.1 + (if p.addr.is4 then statsContrib 32 p.bits.toNat else 0),
       acc.2 + (if p.addr.is4 then 0 else statsContrib 128 p.bits.toNat)) := by
  obtain ⟨⟨is4, val⟩, bits⟩ := p
  obtain ⟨h0, h1⟩ := h
  have hb0 : (0 : Int) ≤ bits := h0
  cases is4 with
  | true =>
    have h32 : bits ≤ 32 := by simpa [addrBitLen] using h1
    have he : ((32 - bits) % 2 ^ 64 : Int).toNat = 32 - bits.toNat := by omega
    show (if 0 < ((32 - bits) % 2 ^ 64 : Int).toNat then
        (acc.1 + 2 ^ ((32 - bits) % 2 ^ 64 : Int).toNat, acc.2)
      else acc) =
      (acc.1 + (if bits.toNat < 32 then (2 : Int) ^ (32 - bits.toNat) else 0), acc.2 + 0)
    rw [he]
    by_cases hlt : bits < 32
    · have c1 : 0 < 32 - bits.toNat := by omega
      have c2 : bits.toNat < 32 := by omega
      rw [if_pos c1, if_pos c2, add_zero]
    · have c1 : ¬ 0 < 32 - bits.toNat := by omega
      have c2 : ¬ bits.toNat < 32 := by omega
      rw [if_neg c1, if_neg c2]
      simp
  | false =>
    have h128 : bits ≤ 128 := by simpa [addrBitLen] using h1
    have he : ((128 - bits) % 2 ^ 64 : Int).toNat = 128 - bits.toNat := by omega
    show (if 0 < ((128 - bits) % 2 ^ 64 : Int).toNat then
        (acc.1, acc.2 + 2 ^ ((128 - bits) % 2 ^ 64 : Int).toNat)
      else acc) =
      (acc.1 + 0, acc.2 + (if bits.toNat < 128 then (2 : Int) ^ (128 - bits.toNat) else 0))
    rw [he]
    by_cases hlt : bits < 128
    · have c1 : 0 < 128 - bits.toNat := by omega
      have c2 : bits.toNat < 128 := by omega
      rw [if_pos c1, if_pos c2, add_zero]
    · have c1 : ¬ 0 < 128 - bits.toNat := by omega
      have c2 : ¬ bits.toNat < 128 := by omega
      rw [if_neg c1, if_neg c2]
      simp

theorem mainStep_eq (acc : Int × Int) (p : GoPfx) (h : validPfx p) :
    mainHostsStep acc p =
      (acc.1 + (if p.addr.is4 then mainContrib4 p.bits.toNat else 0),
       acc.2 + (if p.addr.is4 then 0 else statsContrib 128 p.bits.toNat)) := by
  obtain ⟨⟨is4, val⟩, bits⟩ := p
  obtain ⟨h0, h1⟩ := h
  have hb0 : (0 : Int) ≤ bits := h0
  cases is4 with
  | true =>
    have h32 : bits ≤ 32 := by simpa [addrBitLen] using h1
    have he : ((32 - bits) % 2 ^ 64 : Int).toNat = 32 - bits.toNat := by omega
    show (if 0 < ((32 - bits) % 2 ^ 64 : Int).toNat then
        (acc.1 + (if (32 : Int) = 32 ∧ ((32 - bits) % 2 ^ 64 : Int).toNat < 31 then
            2 ^ ((32 - bits) % 2 ^ 64 : Int).toNat - 2
          else 2 ^ ((32 - bits) % 2 ^ 64 : Int).toNat), acc.2)
      else acc) =
      (acc.1 + (if bits.toNat < 32 then
          (if 1 < bits.toNat then (2 : Int) ^ (32 - bits.toNat) - 2
           else (2 : Int) ^ (32 - bits.toNat))
        else 0), acc.2 + 0)
    rw [he]
    by_cases hlt : bits < 32
    · have c1 : 0 < 32 - bits.toNat := by omega
      have c2 : bits.toNat < 32 := by omega
      rw [if_pos c1, if_pos c2, add_zero]
      by_cases hb1 : 1 < bits.toNat
      · have c3 : (32 : Int) = 32 ∧ 32 - bits.toNat < 31 := ⟨rfl, by omega⟩
        rw [if_pos c3, if_pos hb1]
      · have c3 : ¬ ((32 : Int) = 32 ∧ 32 - bits.toNat < 31) := by
          rintro ⟨_, hx⟩
          omega
        rw [if_neg c3, if_neg hb1]
    · have c1 : ¬ 0 < 32 - bits.toNat := by omega
      have c2 : ¬ bits.toNat < 32 := by omega
      rw [if_neg c1, if_neg c2]
      simp
  | false =>
    have h128 : bits ≤ 128 := by simpa [addrBitLen] using h1
    have he : ((128 - bits) % 2 ^ 64 : Int).toNat = 128 - bits.toNat := by omega
    show (if 0 < ((128 - bits) % 2 ^ 64 : Int).toNat then
        (acc.1, acc.2 + (if (128 : Int) = 32 ∧ ((128 - bits) % 2 ^ 64 : Int).toNat < 31 then
            2 ^ ((128 - bits) % 2 ^ 64 : Int).toNat - 2
          else 2 ^ ((128 - bits) % 2 ^ 64 : Int).toNat))
      else acc) =
      (acc.1 + 0, acc.2 + (if bits.toNat < 128 then (2 : Int) ^ (128 - bits.toNat) else 0))
    have c0 : ¬ ((128 : Int) = 32 ∧ ((128 - bits) % 2 ^ 64 : Int).toNat < 31) := by
      rintro ⟨hx, _⟩
      omega
    rw [if_neg c0, he]
    by_cases hlt : bits < 128
    · have c1 : 0 < 128 - bits.toNat := by omega
      have c2 : bits.toNat < 128 := by omega
      rw [if_pos c1, if_pos c2, add_zero]
    · have c1 : ¬ 0 < 128 - bits.toNat := by omega
      have c2 : ¬ bits.toNat < 128 := by omega
      rw [if_neg c1, if_neg c2]
      simp

theorem foldPair_acc {step : Int × Int → GoPfx → Int × Int}
    {f4 f6 : GoPfx → Int}
    (hstep : ∀ acc p, validPfx p → step acc p = (acc.1 + f4 p, acc.2 + f6 p)) :
    ∀ (ps : List GoPfx) (a b : Int), (∀ p ∈ ps, validPfx p) →
      ps.foldl step (a, b) = (a + (ps.map f4).sum, b + (ps.map f6).sum) := by
  intro ps
  induction ps with
  | nil => intro a b _; simp
  | cons p t iht =>
    intro a b h
    rw [List.foldl_cons, hstep (a, b) p (h p (List.mem_cons_self p t))]
    rw [iht _ _ fun q hq => h q (List.mem_cons_of_mem p hq)]
    simp only [List.map_cons, List.sum_cons, Prod.mk.injEq]
    constructor <;> ring

/-- Counterexample to claim C1: a `/24` contributes 256 (not 254) to the
current `countryStats` aggregation, and in the older `main` aggregation a
`/31` contributes 0 (not 2) and a `/32` contributes 0 (not 1) — as does a
`/32` under `countryStats`. -/
theorem c1_counterexample :
    countryStatsFold [⟨⟨true, 0⟩, 24⟩] = (256, 0) ∧ (256 : Int) ≠ 254 ∧
    mainHostsFold [⟨⟨true, 0⟩, 31⟩] = (0, 0) ∧ (0 : Int) ≠ 2 ∧
    mainHostsFold [⟨⟨true, 0⟩, 32⟩] = (0, 0) ∧
    countryStatsFold [⟨⟨true, 0⟩, 32⟩] = (0, 0) ∧ (0 : Int) ≠ 1 := by
  decide

/-- Claim C1, amended to the code's behaviour: in the current
`countryStats` aggregation a valid IPv4 prefix of length `L < 32`
contributes `2^(32-L)` with nothing subtracted and a `/32` contributes
nothing; in the older `main` aggregation 2 is subtracted exactly when
`1 < L < 32`, so a `/24` contributes 254 but a `/31` and a `/32` contribute
0; IPv6 prefixes of length `L < 128` contribute `2^(128-L)` in either
variant and a `/128` contributes nothing; the per-family totals are
arbitrary-precision sums of these contributions. -/
theorem c1_hostcount_amended (ps : List GoPfx) (hv : ∀ p ∈ ps, validPfx p) :
    countryStatsFold ps =
      ((ps.map fun p => if p.addr.is4 then statsContrib 32 p.bits.toNat else 0).sum,
       (ps.map fun p => if p.addr.is4 then 0 else statsContrib 128 p.bits.toNat).sum) ∧
    mainHostsFold ps =
      ((ps.map fun p => if p.addr.is4 then mainContrib4 p.bits.toNat else 0).sum,
       (ps.map fun p => if p.addr.is4 then 0 else statsContrib 128 p.bits.toNat).sum) := by
  constructor
  · rw [countryStatsFold, foldPair_acc statsStep_eq ps 0 0 hv]
    simp
  · rw [mainHostsFold, foldPair_acc mainStep_eq ps 0 0 hv]
    simp

theorem count_map_eq_countP {α : Type} (f : α → String) (l : List α) (s : String) :
    (l.map f).count s = l.countP fun a => f a == s := by
  induction l with
  | nil => rfl
  | cons a t iht =>
    simp only [List.map_cons, List.count_cons, List.countP_cons, iht]

/-- Claim C8: the address-containment query yields, for every record and
every decomposed prefix containing the query address, exactly one output
line `countryCode ++ "\t" ++ prefix` — every match is emitted and
duplicates are kept, expressed as an exact multiplicity count for every
candidate output line. -/
theorem c8_containment (addr : GoAddr) (recs : List IpRecordM) (out : List String)
    (h : matchOnIpM addr recs = some out) (s : String) :
    out.count s =
      (recs.map fun r =>
        (((netOf r).getD []).filter fun p => pfxContainsB p addr).countP
          (fun p => r.cc ++ "\t" ++ pfxToString p == s)).sum := by
  induction recs generalizing out with
  | nil =>
    simp only [matchOnIpM] at h
    injection h with h
    subst h
    simp
  | cons r t iht =>
    simp only [matchOnIpM] at h
    cases hn : netOf r with
    | none =>
      rw [hn] at h
      cases h
    | some nets =>
      rw [hn, Option.some_bind, Option.map_eq_some'] at h
      obtain ⟨tail, htail, rfl⟩ := h
      rw [List.count_append, List.map_cons, List.sum_cons, iht tail htail, hn]
      simp only [Option.getD_some]
      rw [count_map_eq_countP]

/-- A concrete IPv4 record `FR 1.2.3.0, 256 hosts` used in witnesses. -/
def rirFr1 : IpRecordM :=
  ⟨⟨"ripencc", "FR", "ipv4", 256, "20100101", "allocated", ""⟩, ⟨true, 16909056⟩⟩

/-- A concrete IPv4 record for `DE` used in witnesses. -/
def rirDe1 : IpRecordM :=
  ⟨⟨"ripencc", "DE", "ipv4", 256, "20100101", "allocated", ""⟩, ⟨true, 0⟩⟩

/-- A concrete record with family `asn` (never yielded by the country
filter) used in witnesses. -/
def rirAsnTyped : IpRecordM :=
  ⟨⟨"ripencc", "FR", "asn", 5, "20100101", "allocated", ""⟩, ⟨true, 0⟩⟩

/-- Witness for C8: two identical registrations produce the same line
twice (duplicates kept), with multiplicity 2 for the query `1.2.3.10`. -/
theorem c8_containment_witness :
    matchOnIpM ⟨true, 16909066⟩ [rirFr1, rirFr1] =
      some ["FR\t1.2.3.0/24", "FR\t1.2.3.0/24"] ∧
    (["FR\t1.2.3.0/24", "FR\t1.2.3.0/24"] : List String).count "FR\t1.2.3.0/24" =
      ([rirFr1, rirFr1].map fun r =>
        (((netOf r).getD []).filter fun p => pfxContainsB p ⟨true, 16909066⟩).countP
          (fun p => r.cc ++ "\t" ++ pfxToString p == "FR\t1.2.3.0/24")).sum :=
  ⟨by decide, c8_containment ⟨true, 16909066⟩ [rirFr1, rirFr1] _ (by decide) _⟩

theorem countryNets_mem (country : String) :
    ∀ (recs : List IpRecordM) (out : List GoPfx), countryNets country recs = some out →
      ∀ p : GoPfx, p ∈ out ↔ ∃ r ∈ recs, r.cc = country ∧
        (r.type = "ipv4" ∨ r.type = "ipv6") ∧ ∃ nets, netOf r = some nets ∧ p ∈ nets := by
  intro recs
  induction recs with
  | nil =>
    intro out hout p
    simp only [countryNets] at hout
    injection hout with hout
    subst hout
    simp
  | cons r t iht =>
    intro out hout p
    simp only [countryNets] at hout
    by_cases hcc : r.cc = country ∧ (r.type = "ipv4" ∨ r.type = "ipv6")
    · rw [if_pos hcc] at hout
      cases hn : netOf r with
      | none =>
        rw [hn] at hout
        cases hout
      | some nets =>
        rw [hn, Option.some_bind, Option.map_eq_some'] at hout
        obtain ⟨tail, htail, rfl⟩ := hout
        rw [List.mem_append]
        constructor
        · rintro (hp | hp)
          · exact ⟨r, List.mem_cons_self r t, hcc.1, hcc.2, nets, hn, hp⟩
          · obtain ⟨r', hr', h1, h2, nets', hn', hp'⟩ := (iht tail htail p).mp hp
            exact ⟨r', List.mem_cons_of_mem r hr', h1, h2, nets', hn', hp'⟩
        · rintro ⟨r', hr', h1, h2, nets', hn', hp'⟩
          rcases List.mem_cons.mp hr' with rfl | hr'
          · left
            rw [hn] at hn'
            injection hn' with e
            subst e
            exact hp'
          · right
            exact (iht tail htail p).mpr ⟨r', hr', h1, h2, nets', hn', hp'⟩
    · rw [if_neg hcc] at hout
      rw [iht out hout p]
      constructor
      · rintro ⟨r', hr', hrest⟩
        exact ⟨r', List.mem_cons_of_mem r hr', hrest⟩
      · rintro ⟨r', hr', h1, h2, hrest⟩
        rcases List.mem_cons.mp hr' with rfl | hr'
        · exact absurd ⟨h1, h2⟩ hcc
        · exact ⟨r', hr', h1, h2, hrest⟩

/-- Claim C9: the country filter is insensitive to the case of the query
string (which is normalised to uppercase), and yields exactly the
decomposed prefixes of records whose country code equals the uppercased
query and whose family is `ipv4` or `ipv6` — so records of any other
family, `asn` included, are never yielded. -/
theorem c9_country_filter (q : String) (recs : List IpRecordM) :
    (∀ q2, goToUpper q2 = goToUpper q → countryQueryM q2 recs = countryQueryM q recs) ∧
    ∀ out, countryQueryM q recs = some out →
      ∀ p : GoPfx, p ∈ out ↔ ∃ r ∈ recs, r.cc = goToUpper q ∧
        (r.type = "ipv4" ∨ r.type = "ipv6") ∧ ∃ nets, netOf r = some nets ∧ p ∈ nets := by
  refine ⟨?_, ?_⟩
  · intro q2 hq
    unfold countryQueryM
    rw [hq]
  · intro out hout p
    exact countryNets_mem (goToUpper q) recs out hout p

/-- Witness for C9: query `fr` against `[FR ipv4, DE ipv4, FR asn]` —
query case does not matter, and the FR `/24` is characterised as coming
from the `FR` `ipv4` record. -/
theorem c9_country_filter_witness :
    (goToUpper "FR" = goToUpper "fr" ∧
      countryQueryM "FR" [rirFr1, rirDe1, rirAsnTyped] =
        countryQueryM "fr" [rirFr1, rirDe1, rirAsnTyped]) ∧
    (countryQueryM "fr" [rirFr1, rirDe1, rirAsnTyped] = some [⟨⟨true, 16909056⟩, 24⟩] ∧
      ((⟨⟨true, 16909056⟩, 24⟩ : GoPfx) ∈ [(⟨⟨true, 16909056⟩, 24⟩ : GoPfx)] ↔
        ∃ r ∈ [rirFr1, rirDe1, rirAsnTyped], r.cc = goToUpper "fr" ∧
          (r.type = "ipv4" ∨ r.type = "ipv6") ∧
          ∃ nets, netOf r = some nets ∧ (⟨⟨true, 16909056⟩, 24⟩ : GoPfx) ∈ nets)) :=
  ⟨⟨by decide, (c9_country_filter "fr" [rirFr1, rirDe1, rirAsnTyped]).1 "FR" (by decide)⟩,
   ⟨by decide, (c9_country_filter "fr" [rirFr1, rirDe1, rirAsnTyped]).2
      [⟨⟨true, 16909056⟩, 24⟩] (by decide) _⟩⟩

/-! ### Classification characterisations (claims C5, C7, C10) -/

theorem listHasPre_iff : ∀ (pre l : List Char), listHasPre pre l = true ↔ ∃ t, l = pre ++ t := by
  intro pre
  induction pre with
  | nil =>
    intro l
    simp [listHasPre]
  | cons p ps ihp =>
    intro l
    cases l with
    | nil =>
      simp [listHasPre]
    | cons c cs =>
      simp only [listHasPre, Bool.and_eq_true, beq_iff_eq, ihp cs, List.cons_append]
      constructor
      · rintro ⟨rfl, t, rfl⟩
        exact ⟨t, rfl⟩
      · rintro ⟨t, h⟩
        injection h with hc hcs
        exact ⟨hc.symm, t, hcs⟩

/-- Spec-side reading of a "blank or comment" line: optional whitespace,
then nothing or a `#` comment. -/
def specBlankOrComment (l : String) : Prop :=
  l.data.dropWhile goSpace = [] ∨ ∃ rest, l.data.dropWhile goSpace = '#' :: rest

/-- Spec-side reading of "starts with a decimal number": the first
character is an ASCII digit. -/
def specStartsDigit (l : String) : Prop :=
  ∃ c cs, l.data = c :: cs ∧ c.isDigit = true

/-- Spec-side reading of "ends with the literal token `summary`". -/
def specEndsSummary (l : String) : Prop :=
  ∃ t, l.data = t ++ "summary".data

/-- Spec-side reading of "the field begins with `w`". -/
def specFieldBegins (w f : String) : Prop :=
  ∃ t, f.data = w.data ++ t

theorem isIgnoredA_iff (l : String) : isIgnoredA l = true ↔ specBlankOrComment l := by
  unfold isIgnoredA specBlankOrComment
  cases h : l.data.dropWhile goSpace with
  | nil => simp
  | cons c cs =>
    rw [beq_iff_eq]
    constructor
    · rintro rfl
      exact Or.inr ⟨cs, rfl⟩
    · rintro (hnil | ⟨rest, hrest⟩)
      · cases hnil
      · exact (List.cons_eq_cons.mp hrest).1

theorem isVersionLine_iff (l : String) : isVersionLine l = true ↔ specStartsDigit l := by
  unfold isVersionLine specStartsDigit
  cases h : l.data with
  | nil => simp
  | cons c cs =>
    constructor
    · intro hd
      exact ⟨c, cs, rfl, hd⟩
    · rintro ⟨c', cs', he, hd⟩
      injection he with hc _
      exact hc ▸ hd

theorem goHasSuf_iff (suf s : String) : goHasSuf suf s = true ↔ ∃ t, s.data = t ++ suf.data := by
  unfold goHasSuf
  rw [listHasPre_iff]
  constructor
  · rintro ⟨t, h⟩
    refine ⟨t.reverse, ?_⟩
    have h2 := congrArg List.reverse h
    rw [List.reverse_reverse, List.reverse_append, List.reverse_reverse] at h2
    exact h2
  · rintro ⟨t, h⟩
    refine ⟨t.reverse, ?_⟩
    rw [h, List.reverse_append]

theorem isSummaryLine_iff (l : String) : isSummaryLine l = true ↔ specEndsSummary l :=
  goHasSuf_iff "summary" l

theorem goHasPre_iff (w f : String) : goHasPre w f = true ↔ specFieldBegins w f :=
  listHasPre_iff w.data f.data

instance (l : String) : Decidable (specBlankOrComment l) :=
  decidable_of_iff _ (isIgnoredA_iff l)

instance (l : String) : Decidable (specStartsDigit l) :=
  decidable_of_iff _ (isVersionLine_iff l)

instance (l : String) : Decidable (specEndsSummary l) :=
  decidable_of_iff _ (isSummaryLine_iff l)

instance (w f : String) : Decidable (specFieldBegins w f) :=
  decidable_of_iff _ (goHasPre_iff w f)

/-- Counterexample to C5 as stated: the third field `asnx` is not exactly
`asn`, yet the line routes to an ASN entry (prefix match) and produces a
record rather than being dropped. -/
theorem c5_counterexample :
    classifyLine "ripencc|FR|asnx|1|5|d|s" = some LineClass.asnEntry ∧
    (fieldsOf "ripencc|FR|asnx|1|5|d|s").get? 2 = some "asnx" ∧ "asnx" ≠ "asn" ∧
    readA ["ripencc|FR|asnx|1|5|d|s"] =
      some ⟨0, 0, 0, 0, 0, [⟨⟨"ripencc", "FR", "asnx", 5, "d", "s", ""⟩, 1⟩], []⟩ := by
  decide

/-- Claim C5, amended: the parser classifies each line in this precedence —
blank-or-comment lines are ignored; otherwise a line starting with a
decimal digit is the version line; otherwise a line ending in the token
`summary` is a summary line; otherwise the 3rd pipe-delimited field
decides: a prefix of `ipv` routes to ip-entry and a **prefix** of `asn`
(not an exact match) routes to asn-entry; any other 3rd-field value is
silently dropped, leaving the read state unchanged. -/
theorem c5_classification_amended (l : String) :
    (specBlankOrComment l → classifyLine l = some LineClass.ignored) ∧
    (¬ specBlankOrComment l → specStartsDigit l → classifyLine l = some LineClass.version) ∧
    (¬ specBlankOrComment l → ¬ specStartsDigit l → specEndsSummary l →
      classifyLine l = some LineClass.summary) ∧
    (∀ f2, ¬ specBlankOrComment l → ¬ specStartsDigit l → ¬ specEndsSummary l →
      (fieldsOf l).get? 2 = some f2 →
      (specFieldBegins "ipv" f2 → classifyLine l = some LineClass.ipEntry) ∧
      (¬ specFieldBegins "ipv" f2 → specFieldBegins "asn" f2 →
        classifyLine l = some LineClass.asnEntry) ∧
      (¬ specFieldBegins "ipv" f2 → ¬ specFieldBegins "asn" f2 →
        classifyLine l = some LineClass.dropped ∧ ∀ st, readStepA st l = some st)) := by
  refine ⟨?_, ?_, ?_, ?_⟩
  · intro hig
    rw [classifyLine, if_pos ((isIgnoredA_iff l).mpr hig)]
  · intro hig hver
    rw [classifyLine, if_neg ?hig, if_pos ((isVersionLine_iff l).mpr hver)]
    case hig =>
      intro hc
      exact hig ((isIgnoredA_iff l).mp hc)
  · intro hig hver hsum
    rw [classifyLine, if_neg ?hig, if_neg ?hver, if_pos ((isSummaryLine_iff l).mpr hsum)]
    case hig =>
      intro hc
      exact hig ((isIgnoredA_iff l).mp hc)
    case hver =>
      intro hc
      exact hver ((isVersionLine_iff l).mp hc)
  · intro f2 hig hver hsum hf2
    have big : ¬ isIgnoredA l = true := fun hc => hig ((isIgnoredA_iff l).mp hc)
    have bver : ¬ isVersionLine l = true := fun hc => hver ((isVersionLine_iff l).mp hc)
    have bsum : ¬ isSummaryLine l = true := fun hc => hsum ((isSummaryLine_iff l).mp hc)
    refine ⟨?_, ?_, ?_⟩
    · intro hipv
      rw [classifyLine, if_neg big, if_neg bver, if_neg bsum, hf2]
      simp only [if_pos ((goHasPre_iff "ipv" f2).mpr hipv)]
    · intro hnipv hasn
      rw [classifyLine, if_neg big, if_neg bver, if_neg bsum, hf2]
      have b1 : ¬ goHasPre "ipv" f2 = true := fun hc => hnipv ((goHasPre_iff "ipv" f2).mp hc)
      simp only [if_neg b1, if_pos ((goHasPre_iff "asn" f2).mpr hasn)]
    · intro hnipv hnasn
      have b1 : ¬ goHasPre "ipv" f2 = true := fun hc => hnipv ((goHasPre_iff "ipv" f2).mp hc)
      have b2 : ¬ goHasPre "asn" f2 = true := fun hc => hnasn ((goHasPre_iff "asn" f2).mp hc)
      constructor
      · rw [classifyLine, if_neg big, if_neg bver, if_neg bsum, hf2]
        simp only [if_neg b1, if_neg b2]
      · intro st
        rw [readStepA]
        rw [if_neg big, if_neg bver, if_neg bsum, hf2]
        simp only [if_neg b1, if_neg b2]

/-- Witness for the amended C5 at the line `ripencc|FR|asnx|1|5|d|s`:
classification hypotheses hold concretely and the line routes to
asn-entry. -/
theorem c5_classification_amended_witness :
    (¬ specBlankOrComment "ripencc|FR|asnx|1|5|d|s" ∧
     ¬ specStartsDigit "ripencc|FR|asnx|1|5|d|s" ∧
     ¬ specEndsSummary "ripencc|FR|asnx|1|5|d|s" ∧
     (fieldsOf "ripencc|FR|asnx|1|5|d|s").get? 2 = some "asnx" ∧
     ¬ specFieldBegins "ipv" "asnx" ∧ specFieldBegins "asn" "asnx") ∧
    classifyLine "ripencc|FR|asnx|1|5|d|s" = some LineClass.asnEntry :=
  ⟨⟨by decide, by decide, by decide, by decide, by decide, by decide⟩,
   (((c5_classification_amended "ripencc|FR|asnx|1|5|d|s").2.2.2 "asnx"
      (by decide) (by decide) (by decide) (by decide)).2.1 (by decide) (by decide))⟩

/-- The field at index `i` is present but fails integer decoding. -/
def badIntAt (fields : List String) (i : Nat) : Bool :=
  (fields.get? i).elim false fun f => (goAtoi f).isNone

theorem badIntAt_iff (fields : List String) (i : Nat) :
    badIntAt fields i = true ↔ ∃ f, fields.get? i = some f ∧ goAtoi f = none := by
  unfold badIntAt
  cases h : fields.get? i with
  | none => simp
  | some f => simp [Option.isNone_iff_eq_none]

/-- A line that the older reader classifies and whose integer numeric
field fails to decode: a version line with a bad record count (field 3), a
summary line with a bad count (field 4), or an entry line with a bad value
(field 4) — for ASN entries also a bad start (field 3).  The dispatch
mirrors `readStepB`. -/
def intDecodeFails (l : String) : Bool :=
  let fields := fieldsOf l
  !isIgnoredB l &&
    (if isVersionLine l then badIntAt fields 3
     else if isSummaryLine l then badIntAt fields 4
     else
       (fields.get? 2).elim false fun f2 =>
         if goHasPre "ipv" f2 then badIntAt fields 4
         else if goHasPre "asn" f2 then badIntAt fields 4 || badIntAt fields 3
         else false)

theorem parseVersionB_none_of_badInt (fields : List String) (f3 : String)
    (h3 : fields.get? 3 = some f3) (hbad : goAtoi f3 = none) :
    parseVersionB fields = none := by
  unfold parseVersionB
  rw [h3]
  rcases h0 : fields.get? 0 with _ | f0 <;>
  rcases h1 : fields.get? 1 with _ | f1 <;>
  rcases h2 : fields.get? 2 with _ | f2 <;>
  rcases h4 : fields.get? 4 with _ | f4 <;>
  rcases h5 : fields.get? 5 with _ | f5 <;>
  rcases h6 : fields.get? 6 with _ | f6 <;>
  simp [hbad]

theorem parseSummaryM_none_of_badInt (fields : List String) (f4 : String)
    (h4 : fields.get? 4 = some f4) (hbad : goAtoi f4 = none) :
    parseSummaryM fields = none := by
  unfold parseSummaryM
  rw [h4]
  rcases h0 : fields.get? 0 with _ | f0 <;>
  rcases h2 : fields.get? 2 with _ | f2 <;>
  simp [hbad]

theorem buildRecordM_none_of_badInt (fields : List String) (f4 : String)
    (h4 : fields.get? 4 = some f4) (hbad : goAtoi f4 = none) :
    buildRecordM fields = none := by
  unfold buildRecordM
  rw [h4]
  rcases h0 : fields.get? 0 with _ | f0 <;>
  rcases h1 : fields.get? 1 with _ | f1 <;>
  rcases h2 : fields.get? 2 with _ | f2 <;>
  rcases h5 : fields.get? 5 with _ | f5 <;>
  rcases h6 : fields.get? 6 with _ | f6 <;>
  simp [hbad]

theorem parseIpM_none_of_badInt (fields : List String) (f4 : String)
    (h4 : fields.get? 4 = some f4) (hbad : goAtoi f4 = none) :
    parseIpM fields = none := by
  unfold parseIpM
  rw [buildRecordM_none_of_badInt fields f4 h4 hbad]
  rfl

theorem parseAsnM_none_of_badValue (fields : List String) (f4 : String)
    (h4 : fields.get? 4 = some f4) (hbad : goAtoi f4 = none) :
    parseAsnM fields = none := by
  unfold parseAsnM
  rw [buildRecordM_none_of_badInt fields f4 h4 hbad]
  rfl

theorem parseAsnM_none_of_badStart (fields : List String) (f3 : String)
    (h3 : fields.get? 3 = some f3) (hbad : goAtoi f3 = none) :
    parseAsnM fields = none := by
  unfold parseAsnM
  rw [h3]
  rcases hb : buildRecordM fields with _ | r0 <;> simp [hbad]

theorem readStepB_none_of_intDecodeFails (l : String) (h : intDecodeFails l = true)
    (st : ReadStateM) : readStepB st l = none := by
  unfold intDecodeFails at h
  simp only [Bool.and_eq_true, Bool.not_eq_true'] at h
  obtain ⟨hig, hrest⟩ := h
  unfold readStepB
  rw [hig]
  simp only [Bool.false_eq_true, if_false]
  by_cases hver : isVersionLine l = true
  · rw [if_pos hver]
    rw [if_pos hver] at hrest
    obtain ⟨f3, h3, hbad⟩ := (badIntAt_iff (fieldsOf l) 3).mp hrest
    rw [parseVersionB_none_of_badInt (fieldsOf l) f3 h3 hbad]
    rfl
  · rw [if_neg hver]
    rw [if_neg hver] at hrest
    by_cases hsum : isSummaryLine l = true
    · rw [if_pos hsum]
      rw [if_pos hsum] at hrest
      obtain ⟨f4, h4, hbad⟩ := (badIntAt_iff (fieldsOf l) 4).mp hrest
      rw [parseSummaryM_none_of_badInt (fieldsOf l) f4 h4 hbad]
      rfl
    · rw [if_neg hsum]
      rw [if_neg hsum] at hrest
      cases h2 : (fieldsOf l).get? 2 with
      | none => rfl
      | some f2 =>
        rw [h2] at hrest
        simp only [Option.elim_some] at hrest
        by_cases hipv : goHasPre "ipv" f2 = true
        · rw [if_pos hipv] at hrest
          obtain ⟨f4, h4, hbad⟩ := (badIntAt_iff (fieldsOf l) 4).mp hrest
          have hp := parseIpM_none_of_badInt (fieldsOf l) f4 h4 hbad
          simp [hipv, hp]
        · rw [if_neg hipv] at hrest
          by_cases hasn : goHasPre "asn" f2 = true
          · rw [if_pos hasn] at hrest
            rcases Bool.or_eq_true_iff.mp hrest with hb4 | hb3
            · obtain ⟨f4, h4, hbad⟩ := (badIntAt_iff (fieldsOf l) 4).mp hb4
              have hp := parseAsnM_none_of_badValue (fieldsOf l) f4 h4 hbad
              simp [hipv, hasn, hp]
            · obtain ⟨f3, h3, hbad⟩ := (badIntAt_iff (fieldsOf l) 3).mp hb3
              have hp := parseAsnM_none_of_badStart (fieldsOf l) f3 h3 hbad
              simp [hipv, hasn, hp]
          · rw [if_neg hasn] at hrest
            cases hrest

theorem readLoopB_none : ∀ lines : List String,
    (∃ l ∈ lines, intDecodeFails l = true) → ∀ st, readLoopB st lines = none := by
  intro lines
  induction lines with
  | nil =>
    rintro ⟨l, hl, -⟩
    cases hl
  | cons a t iht =>
    rintro ⟨l, hl, hbad⟩ st
    rcases List.mem_cons.mp hl with rfl | hl
    · unfold readLoopB
      rw [readStepB_none_of_intDecodeFails l hbad st]
    · unfold readLoopB
      cases ha : readStepB st a with
      | none => rfl
      | some st' => exact iht ⟨l, hl, hbad⟩ st'

/-- Counterexample to C7 as stated: the classified version line
`1x|r|s|5|a|b|c` has a malformed version number (`ParseFloat` fails on
`1x`), yet the run does not abort — the returned RecordSet contains the
line's values, with version 0. -/
theorem c7_counterexample :
    isVersionLine "1x|r|s|5|a|b|c" = true ∧ goParseFloat "1x" = none ∧
    readB ["1x|r|s|5|a|b|c"] = some ⟨0, 5, 0, 0, 0, [], []⟩ := by
  decide

/-- Claim C7, amended: a decode failure of any *integer* numeric field of a
classified line (record count, summary count, entry value, ASN start) is a
fatal parse error — the whole run aborts with no RecordSet — but a decode
failure of the version line's floating-point version number is silently
discarded: the line still parses with version 0 and contributes to the
RecordSet. -/
theorem c7_numeric_fatal_amended :
    (∀ lines : List String, (∃ l ∈ lines, intDecodeFails l = true) → readB lines = none) ∧
    (∀ (fields : List String) f0 f1 f2 f3 f4 f5 f6 (n : Int),
      fields.get? 0 = some f0 → fields.get? 1 = some f1 → fields.get? 2 = some f2 →
      fields.get? 3 = some f3 → fields.get? 4 = some f4 → fields.get? 5 = some f5 →
      fields.get? 6 = some f6 → goAtoi f3 = some n → goParseFloat f0 = none →
      parseVersionB fields = some ⟨0, f1, f2, n, f4, f5, f6⟩) := by
  constructor
  · intro lines hex
    unfold readB
    rw [readLoopB_none lines hex initReadState]
    rfl
  · intro fields f0 f1 f2 f3 f4 f5 f6 n h0 h1 h2 h3 h4 h5 h6 hn hf
    unfold parseVersionB
    rw [h0, h1, h2, h3, h4, h5, h6]
    simp [hn, hf]

/-- Witness for the amended C7: the feed `9|r|s|zz|a|b|c` (bad record
count) aborts, and the version line `1x|r|s|5|a|b|c` (bad version number,
good record count) still parses with version 0. -/
theorem c7_numeric_fatal_amended_witness :
    ((∃ l ∈ ["9|r|s|zz|a|b|c"], intDecodeFails l = true) ∧
      readB ["9|r|s|zz|a|b|c"] = none) ∧
    ((fieldsOf "1x|r|s|5|a|b|c").get? 0 = some "1x" ∧ goAtoi "5" = some 5 ∧
      goParseFloat "1x" = none ∧
      parseVersionB (fieldsOf "1x|r|s|5|a|b|c") = some ⟨0, "r", "s", 5, "a", "b", "c"⟩) :=
  ⟨⟨by decide, c7_numeric_fatal_amended.1 ["9|r|s|zz|a|b|c"] (by decide)⟩,
   ⟨by decide, by decide, by decide,
    c7_numeric_fatal_amended.2 (fieldsOf "1x|r|s|5|a|b|c") "1x" "r" "s" "5" "a" "b" "c" 5
      (by decide) (by decide) (by decide) (by decide) (by decide) (by decide) (by decide)
      (by decide) (by decide)⟩⟩

/-- Claim C10: a line that is not blank or a comment, does not start with a
decimal digit, does not end in `summary`, and splits into fewer than three
pipe-delimited fields — such as `abc` — drives the classification into the
out-of-range read of the third field (a panic in Go, `none` in this total
embedding), so `Read` returns no RecordSet for a feed containing it. -/
theorem c10_short_line_oob :
    isIgnoredA "abc" = false ∧ isVersionLine "abc" = false ∧
    isSummaryLine "abc" = false ∧ fieldsOf "abc" = ["abc"] ∧
    (fieldsOf "abc").get? 2 = none ∧ classifyLine "abc" = none ∧
    readA ["abc"] = none ∧ readA ["arin|*|ipv4|*|100|summary", "abc"] = none ∧
    readB ["abc"] = none := by
  decide

/-- Witness for the amended C1 on the prefix list `[v4 /24, v4 /31, v6 /126]`. -/
theorem c1_hostcount_amended_witness :
    (∀ p ∈ [(⟨⟨true, 0⟩, 24⟩ : GoPfx), ⟨⟨true, 64⟩, 31⟩, ⟨⟨false, 0⟩, 126⟩], validPfx p) ∧
    (countryStatsFold [⟨⟨true, 0⟩, 24⟩, ⟨⟨true, 64⟩, 31⟩, ⟨⟨false, 0⟩, 126⟩] =
      (([(⟨⟨true, 0⟩, 24⟩ : GoPfx), ⟨⟨true, 64⟩, 31⟩, ⟨⟨false, 0⟩, 126⟩].map
          fun p => if p.addr.is4 then statsContrib 32 p.bits.toNat else 0).sum,
       ([(⟨⟨true, 0⟩, 24⟩ : GoPfx), ⟨⟨true, 64⟩, 31⟩, ⟨⟨false, 0⟩, 126⟩].map
          fun p => if p.addr.is4 then 0 else statsContrib 128 p.bits.toNat).sum) ∧
     mainHostsFold [⟨⟨true, 0⟩, 24⟩, ⟨⟨true, 64⟩, 31⟩, ⟨⟨false, 0⟩, 126⟩] =
      (([(⟨⟨true, 0⟩, 24⟩ : GoPfx), ⟨⟨true, 64⟩, 31⟩, ⟨⟨false, 0⟩, 126⟩].map
          fun p => if p.addr.is4 then mainContrib4 p.bits.toNat else 0).sum,
       ([(⟨⟨true, 0⟩, 24⟩ : GoPfx), ⟨⟨true, 64⟩, 31⟩, ⟨⟨false, 0⟩, 126⟩].map
          fun p => if p.addr.is4 then 0 else statsContrib 128 p.bits.toNat).sum)) :=
  ⟨by decide, c1_hostcount_amended _ (by decide)⟩

end Rir
